import Mathlib

/-!
Verification model of the diagnose-it library (dev-build-deploy/diagnose-it).

The TypeScript sources are shallowly embedded as follows.

* JS strings are modelled as lists of characters (`Chars`); the ANSI styling
  layer (the chalk collaborator) is the identity on the modelled text, which
  matches reading rendered output after stripping style codes.
* JS exceptions are modelled with `Except JsError`; `JsError` records whether
  the thrown object was a plain `Error` or a `RangeError` together with the
  exact message text from the source.
* JS numbers occurring as line numbers, columns and hint ranges are modelled
  as `Int`; `String.prototype.slice` index clamping (negative indices wrap
  from the end, overlong indices clamp) is modelled by `jsTake` / `jsDrop`,
  and array subscription (out of range gives undefined) by `jsGetElem`.
* Class instances are immutable Lean structures; a mutating method becomes a
  function returning the updated structure (or an error).
* Filesystem access, wall-clock timestamps and the readline/regexp/diff
  collaborators are outside the embedded core; where a function consults
  them, this is noted on that function.
-/

namespace DiagnoseIt

/-- Chars is the model of a JavaScript string: its list of characters. -/
abbrev Chars := List Char

/-- Kind of a thrown JS error object (the source throws Error and RangeError). -/
inductive ErrorKind where
  | error
  | rangeError
deriving DecidableEq, Repr

/-- A thrown JS error: its kind and its message. -/
structure JsError where
  kind : ErrorKind
  message : String
deriving DecidableEq, Repr

/-- Model of the JS string coercion applied to undefined, as in a template
literal or concatenation: the eight characters of the word undefined. -/
def undefChars : Chars := "undefined".toList

/-- Model of s.slice(0, i) on a JS string: negative indices wrap from the end,
indices past the end clamp. -/
def jsTake (s : Chars) (i : Int) : Chars :=
  if i < 0 then s.take ((s.length : Int) + i).toNat else s.take i.toNat

/-- Model of s.slice(i) on a JS string: negative indices wrap from the end,
indices past the end clamp. -/
def jsDrop (s : Chars) (i : Int) : Chars :=
  if i < 0 then s.drop ((s.length : Int) + i).toNat else s.drop i.toNat

/-- Model of a[i] on a JS array: undefined (none) when the index is out of
range. -/
def jsGetElem {α : Type} (l : List α) (i : Int) : Option α :=
  if 0 ≤ i then l[i.toNat]? else none

/-- Model of String.prototype.split on the line-break pattern used throughout
the source: a backslash-r-optional backslash-n separator.  The result always
has at least one (possibly empty) segment, as in JS. -/
def splitLines : Chars → List Chars
  | [] => [[]]
  | '\r' :: '\n' :: rest =>
    [] :: splitLines rest
  | '\n' :: rest =>
    [] :: splitLines rest
  | c :: rest =>
    match splitLines rest with
    | [] => [[c]]
    | l :: ls => (c :: l) :: ls

/-- Model of String.prototype.trimEnd: drop trailing whitespace. -/
def trimEnd (s : Chars) : Chars :=
  (s.reverse.dropWhile Char.isWhitespace).reverse

/-- Model of String.prototype.padStart with a single pad character. -/
def padStart (s : Chars) (width : Nat) (c : Char) : Chars :=
  List.replicate (width - s.length) c ++ s

/-- Decimal rendering of an integer, as a JS template literal renders an
integral number. -/
def intChars (n : Int) : Chars := (toString n).toList

/-- Decimal rendering of a natural number (array lengths in headers). -/
def natChars (n : Nat) : Chars := (toString n).toList

/-- Join a list of rendered lines with newline characters, as in
Array.prototype.join. -/
def joinNL : List Chars → Chars
  | [] => []
  | [l] => l
  | l :: ls => l ++ '\n' :: joinNL ls

/-- Tests whether a character list contains a line break, modelling the
regular expression test for backslash-r-optional backslash-n used by setFile
and setMessage.  A lone carriage return does not match that pattern. -/
def containsNewline (s : Chars) : Bool :=
  s.any (· = '\n')

/-! The FixItHint component (src/fixitHint.ts). -/

/-- ModificationType from the source: DEFAULT, INSERT, REMOVE or REPLACE. -/
inductive ModificationType where
  | DEFAULT
  | INSERT
  | REMOVE
  | REPLACE
deriving DecidableEq, Repr

/-- RangeType from the source: a 1-based index and a length. -/
structure RangeType where
  index : Int
  length : Int
deriving DecidableEq, Repr

/-- FixItHint from the source: a modification kind, a range, and optional
text. -/
structure FixItHint where
  modification : ModificationType
  range : RangeType
  text : Option Chars
deriving DecidableEq, Repr

namespace FixItHint

/-- The FixItHint constructor.  Validates the modification against the
optional text: INSERT and REPLACE require text, INSERT rejects a range length
greater than 1, REMOVE and DEFAULT reject supplied text. -/
def construct (modification : ModificationType) (range : RangeType)
    (text : Option Chars) : Except JsError FixItHint :=
  if modification = .INSERT ∨ modification = .REPLACE then
    if text = none then
      .error ⟨.error, "Text is required for INSERT and REPLACE modifications"⟩
    else if modification = .INSERT ∧ range.length > 1 then
      .error ⟨.error, "Length must be 1 for INSERT modifications"⟩
    else
      .ok ⟨modification, range, text⟩
  else
    if text ≠ none then
      .error ⟨.error, "Text is not supported for REMOVE modifications"⟩
    else
      .ok ⟨modification, range, text⟩

/-- FixItHint.create from the source: a DEFAULT hint without text. -/
def create (range : RangeType) : Except JsError FixItHint :=
  construct .DEFAULT range none

/-- FixItHint.createInsertion from the source: an INSERT hint at the given
index with length fixed to 1. -/
def createInsertion (index : Int) (text : Chars) : Except JsError FixItHint :=
  construct .INSERT ⟨index, 1⟩ (some text)

/-- FixItHint.createReplacement from the source. -/
def createReplacement (range : RangeType) (text : Chars) : Except JsError FixItHint :=
  construct .REPLACE range (some text)

/-- FixItHint.createRemoval from the source. -/
def createRemoval (range : RangeType) : Except JsError FixItHint :=
  construct .REMOVE range none

end FixItHint

/-! The DiagnosticsMessage component (src/diagnosticsMessage.ts). -/

/-- DiagnosticsLevelEnum from the source. -/
inductive DiagnosticsLevelEnum where
  | Ignored
  | Note
  | Remark
  | Warning
  | Error
  | Fatal
deriving DecidableEq, Repr

/-- The textual label of each level, from DiagnosticsLevelConfiguration.  The
color entries of that table are styling only and are modelled as identity. -/
def levelText : DiagnosticsLevelEnum → Chars
  | .Ignored => "ignored".toList
  | .Note => "note".toList
  | .Remark => "remark".toList
  | .Warning => "warning".toList
  | .Error => "error".toList
  | .Fatal => "fatal".toList

/-- DiagnosticsMessageType from the source: message text with optional line
number and column. -/
structure DiagnosticsMessageType where
  text : Chars
  linenumber : Option Int
  column : Option Int
deriving DecidableEq, Repr

/-- DiagnosticsContextType from the source: the line number of the first
context line, and the context lines. -/
structure DiagnosticsContextType where
  linenumber : Int
  lines : List Chars
deriving DecidableEq, Repr

/-- IDiagnosticsMessage from the source: the constructor input. -/
structure IDiagnosticsMessage where
  file : Chars
  level : Option DiagnosticsLevelEnum
  message : DiagnosticsMessageType
deriving DecidableEq, Repr

/-- The DiagnosticsMessage class state: file, level, message, optional
context, and the collected fix-it hints. -/
structure DiagnosticsMessage where
  file : Chars
  level : DiagnosticsLevelEnum
  message : DiagnosticsMessageType
  context : Option DiagnosticsContextType
  fixitHints : List FixItHint
deriving DecidableEq, Repr

namespace DiagnosticsMessage

/-- setFile from the source: rejects newlines and spaces in the file name. -/
def setFile (m : DiagnosticsMessage) (file : Chars) : Except JsError DiagnosticsMessage :=
  if containsNewline file then
    .error ⟨.error, "File name cannot contain newlines."⟩
  else if file.contains ' ' then
    .error ⟨.error, "File name cannot contain spaces."⟩
  else
    .ok { m with file := file }

/-- setLevel from the source. -/
def setLevel (m : DiagnosticsMessage) (level : DiagnosticsLevelEnum) : DiagnosticsMessage :=
  { m with level := level }

/-- setMessage from the source: rejects newlines in the text and non-positive
column or line numbers. -/
def setMessage (m : DiagnosticsMessage) (message : DiagnosticsMessageType) :
    Except JsError DiagnosticsMessage :=
  if containsNewline message.text then
    .error ⟨.error, "Message cannot contain newlines."⟩
  else if message.column.getD 1 ≤ 0 then
    .error ⟨.rangeError, "Column number must be greater than 0."⟩
  else if message.linenumber.getD 1 ≤ 0 then
    .error ⟨.rangeError, "Line number must be greater than 0."⟩
  else
    .ok { m with message := message }

/-- The DiagnosticsMessage constructor: applies setFile, then setLevel with
Note as the default level, then setMessage, starting from an empty state (no
context, no hints). -/
def construct (data : IDiagnosticsMessage) : Except JsError DiagnosticsMessage := do
  let m0 : DiagnosticsMessage :=
    { file := [], level := .Note
      message := ⟨[], none, none⟩, context := none, fixitHints := [] }
  let m1 ← m0.setFile data.file
  let m2 := m1.setLevel (data.level.getD .Note)
  m2.setMessage data.message

/-- createError from the source: a message with level Error. -/
def createError (file : Chars) (message : DiagnosticsMessageType) :
    Except JsError DiagnosticsMessage :=
  construct ⟨file, some .Error, message⟩

/-- createWarning from the source: a message with level Warning. -/
def createWarning (file : Chars) (message : DiagnosticsMessageType) :
    Except JsError DiagnosticsMessage :=
  construct ⟨file, some .Warning, message⟩

end DiagnosticsMessage

/-- The context argument of setContext: either a single string (split on line
breaks) or an array of lines.  The source distinguishes the two with
Array.isArray. -/
inductive ContextLines where
  | str (s : Chars)
  | arr (lines : List Chars)
deriving DecidableEq, Repr

/-- The length property the source reads off the raw setContext argument
before splitting: character count for a string, element count for an array. -/
def ContextLines.rawLength : ContextLines → Int
  | .str s => s.length
  | .arr lines => lines.length

/-- The context lines the source stores: a string is split on line breaks, an
array is taken as is. -/
def ContextLines.toLines : ContextLines → List Chars
  | .str s => splitLines s
  | .arr lines => lines

namespace DiagnosticsMessage

/-- setContext from the source.  Note the order of operations in the source:
the range test compares the message line number against the length property of
the raw argument (character count for a string), and only afterwards is a
string argument split into lines. -/
def setContext (m : DiagnosticsMessage) (linenumber : Int) (lines : ContextLines) :
    Except JsError DiagnosticsMessage :=
  if m.message.linenumber.getD 1 < linenumber ∨
      m.message.linenumber.getD 1 > linenumber + lines.rawLength - 1 then
    .error ⟨.rangeError,
      "The line numbers provided by the context do not match the line number associated with the message."⟩
  else if linenumber ≤ 0 then
    .error ⟨.rangeError, "Line number must be greater than 0."⟩
  else
    .ok { m with context := some ⟨linenumber, lines.toLines⟩ }

/-- Stable insertion of a hint into a list sorted by ascending range index,
placing it after all hints with an index less than or equal to its own.  This
models the stable Array.prototype.sort with the comparator on range.index
applied after the push in addFixitHint. -/
def insertSorted (hint : FixItHint) : List FixItHint → List FixItHint
  | [] => [hint]
  | f :: fs =>
    if f.range.index ≤ hint.range.index then f :: insertSorted hint fs
    else hint :: f :: fs

/-- Stable sort of the hint list by ascending range index. -/
def sortHints : List FixItHint → List FixItHint
  | [] => []
  | f :: fs => insertSorted f (sortHints fs)

/-- addFixitHint from the source: requires a context; rejects the new hint
when the index of the new hint lies inside the closed interval from the index
of an existing hint to that index plus that existing length; then pushes and
re-sorts by ascending range index. -/
def addFixitHint (m : DiagnosticsMessage) (hint : FixItHint) :
    Except JsError DiagnosticsMessage :=
  if m.context = none then
    .error ⟨.error, "Cannot add FixIt hint without a context."⟩
  else if m.fixitHints.any (fun fixit =>
      fixit.range.index ≤ hint.range.index ∧
        hint.range.index ≤ fixit.range.index + fixit.range.length) then
    .error ⟨.error, "Cannot add FixIt hint that overlaps with an existing FixIt hint."⟩
  else
    .ok { m with fixitHints := sortHints (m.fixitHints ++ [hint]) }

/-- getFixitHints from the source: the stored hint list. -/
def getFixitHints (m : DiagnosticsMessage) : List FixItHint :=
  m.fixitHints

end DiagnosticsMessage

/-- The switch body of DiagnosticsMessage.applyFixitHints, as a function of
the running string and one hint: INSERT splices the text in at position
range.index minus 1 of the running string, REMOVE drops range.length
characters from that position, REPLACE does both; DEFAULT has no case in the
switch and leaves the string unchanged.  A missing text would be coerced to
the word undefined by the JS string concatenation, modelled by undefChars. -/
def applyHintTo (s : Chars) (fixit : FixItHint) : Chars :=
  match fixit.modification with
  | .INSERT =>
    jsTake s (fixit.range.index - 1) ++ fixit.text.getD undefChars ++
      jsDrop s (fixit.range.index - 1)
  | .REMOVE =>
    jsTake s (fixit.range.index - 1) ++
      jsDrop s (fixit.range.index - 1 + fixit.range.length)
  | .REPLACE =>
    jsTake s (fixit.range.index - 1) ++ fixit.text.getD undefChars ++
      jsDrop s (fixit.range.index - 1 + fixit.range.length)
  | .DEFAULT => s

namespace DiagnosticsMessage

/-- applyFixitHints from the source: requires a context, selects the context
line at index message line number minus context start line (an out of range
index gives undefined, modelled as none; the source would then crash on the
first slice call, while the model keeps none — no claim exercises that
corner), and folds the stored hints over it in stored order, each hint edited
into the running string at its range.index. -/
def applyFixitHints (m : DiagnosticsMessage) : Except JsError (Option Chars) :=
  match m.context with
  | none => .error ⟨.error, "Cannot apply FixIt hints without a context."⟩
  | some context =>
    let start := jsGetElem context.lines (m.message.linenumber.getD 1 - context.linenumber)
    .ok (m.fixitHints.foldl (fun result fixit => result.map (fun s => applyHintTo s fixit)) start)

end DiagnosticsMessage

/-- Modelled from the claim C1 wording: selects the same context line as
applyFixitHints and applies every edit of every hint at the original
range.index of that hint against the character positions of the original
line.  For hints sorted by ascending index and pairwise non-overlapping this
is formalized by applying the hints in descending index order (a foldr),
since an edit strictly to the right of another never shifts the positions the
other refers to. -/
def specApplyFixitHints (m : DiagnosticsMessage) : Except JsError (Option Chars) :=
  match m.context with
  | none => .error ⟨.error, "Cannot apply FixIt hints without a context."⟩
  | some context =>
    let start := jsGetElem context.lines (m.message.linenumber.getD 1 - context.linenumber)
    .ok (m.fixitHints.foldr (fun fixit result => result.map (fun s => applyHintTo s fixit)) start)

/-! The patch generator (src/diff.ts). -/

/-- Modelled from the spec: FixItHint.apply is called by createPatch on the
running string, but the file defining it is not among the sources (the
FixItHint class in the sources carries only validation); sections 4.4 and 4.5
of the specification state that createPatch applies each hint to the previous
result with the same per-kind edit semantics as applyFixitHints, at the
(re-indexed) range.index of the hint. -/
def FixItHint.apply (fixit : FixItHint) (s : Chars) : Chars :=
  applyHintTo s fixit

/-- The forEach loop of createPatch: walks the hint list in stored order,
first re-indexing each hint by the running offset (in the source this mutates
the hint object shared with the message, since only the array was copied),
then applying the re-indexed hint to the running string, then advancing the
offset by the net length change of the edit (text length for INSERT, minus
range length for REMOVE, text length minus range length for REPLACE, with a
missing text contributing 0 for INSERT and the range length for REPLACE).
Returns the final string, the final offset, and the re-indexed hints in
order. -/
def applyHintsWithOffset :
    List FixItHint → Option Chars → Int → Option Chars × Int × List FixItHint
  | [], expected, offset => (expected, offset, [])
  | fixit :: rest, expected, offset =>
    let fixit1 : FixItHint :=
      { fixit with range := { fixit.range with index := fixit.range.index + offset } }
    let expected1 := expected.map (fun s => fixit1.apply s)
    let delta : Int :=
      match fixit.modification with
      | .INSERT => ((fixit.text.map List.length).getD 0 : Nat)
      | .REMOVE => -fixit.range.length
      | .REPLACE => ((fixit.text.map (fun t => (t.length : Int))).getD fixit.range.length) -
          fixit.range.length
      | .DEFAULT => 0
    let res := applyHintsWithOffset rest expected1 (offset + delta)
    (res.1, res.2.1, fixit1 :: res.2.2)

/-- createPatch from the source.  The two file-header lines of the patch name
the file with a filesystem modification time and the wall clock, both outside
the embedded core, so the model returns the patch from the hunk header on, as
a list of lines, together with the message as it stands after the call (the
hint re-indexing of the forEach loop is visible there, since the source
copies only the array, not the hint objects).  A context line is emitted as a
removed line followed by the fixed line exactly when it compares equal to the
selected original line and the original differs from the fixed string. -/
def createPatch (m : DiagnosticsMessage) :
    Except JsError (List Chars × DiagnosticsMessage) :=
  match m.context with
  | none => .error ⟨.error, "Cannot apply FixIt hints without a context."⟩
  | some context =>
    let original := jsGetElem context.lines (m.message.linenumber.getD 1 - context.linenumber)
    let res := applyHintsWithOffset m.fixitHints original 0
    let expected := res.1
    let linenumber := context.linenumber
    let linecount := context.lines.length
    let header :=
      "@@ -".toList ++ intChars linenumber ++ ",".toList ++ natChars linecount ++
        " +".toList ++ intChars linenumber ++ ",".toList ++ natChars linecount ++ " @@".toList
    let body := context.lines.flatMap (fun line =>
      if original = some line ∧ original ≠ expected then
        ['-' :: line, '+' :: expected.getD undefChars]
      else
        [' ' :: line])
    .ok (header :: body, { m with fixitHints := res.2.2 })

/-! Rendering (DiagnosticsMessage.toString and its helpers).  All chalk
styling is identity in the model. -/

namespace DiagnosticsMessage

/-- The caret and hint characters contributed at column i (1-based) by
getFixitHintsString: a caret when i is the message column and the covering
hint (if any) is not DEFAULT, a tilde when some hint range covers i, a space
otherwise; and the character of the hint text whose text span covers i, or a
space.  The JS charAt returns an empty string out of range, hence the
take-of-drop. -/
def fixitColumnChars (m : DiagnosticsMessage) (i : Nat) : Chars × Chars :=
  let fixit := m.fixitHints.find? (fun fixit =>
    fixit.range.index ≤ (i : Int) ∧ (i : Int) < fixit.range.index + fixit.range.length)
  let fixitHint := m.fixitHints.find? (fun hint =>
    hint.range.index ≤ (i : Int) ∧
      (i : Int) < hint.range.index + ((hint.text.map List.length).getD 0 : Nat))
  let caret : Chars :=
    if m.message.column = some (i : Int) ∧ (fixit.map FixItHint.modification) ≠ some .DEFAULT then
      ['^']
    else if fixit.isSome then ['~'] else [' ']
  let hintPart : Chars :=
    match fixitHint with
    | some hint =>
      match hint.text with
      | some t =>
        if (i : Int) - hint.range.index < 0 then []
        else (t.drop ((i : Int) - hint.range.index).toNat).take 1
      | none => [' ']
    | none => [' ']
  (caret, hintPart)

/-- getFixitHintsString from the source: empty when the message has no
column; otherwise builds the caret line and the hint line column by column up
to the largest of the end of the last stored hint range and the message text
length, trims both, and returns one or both prefixed rows. -/
def getFixitHintsString (m : DiagnosticsMessage) (pre : Chars) : List Chars :=
  if m.message.column = none then []
  else
    let maxWidth : Int :=
      match m.fixitHints.getLast? with
      | some lastHint => max (lastHint.range.index + lastHint.range.length)
          (m.message.text.length : Int)
      | none => (m.message.text.length : Int)
    let w : Nat := maxWidth.toNat
    let cols := (List.range w).map (· + 1)
    let caretLine := cols.flatMap (fun i => (m.fixitColumnChars i).1)
    let hintLine := cols.flatMap (fun i => (m.fixitColumnChars i).2)
    if trimEnd hintLine = [] then
      [pre ++ trimEnd caretLine]
    else
      [pre ++ trimEnd caretLine, pre ++ trimEnd hintLine]

/-- getContextString from the source: empty without a context; otherwise an
empty line followed by one gutter-prefixed row per context line, with the
fix-it rows inserted right after the row whose absolute line number equals
the message line number. -/
def getContextString (m : DiagnosticsMessage) : List Chars :=
  match m.context with
  | none => []
  | some context =>
    let maxWidth := (intChars (context.linenumber + context.lines.length)).length
    let seperator := " | ".toList
    [] :: (List.range context.lines.length).flatMap (fun i =>
      let line := context.lines.getD i []
      let row := padStart (intChars (context.linenumber + i)) maxWidth ' ' ++ seperator ++ line
      if some (context.linenumber + (i : Int)) = m.message.linenumber then
        row :: m.getFixitHintsString (List.replicate maxWidth ' ' ++ seperator)
      else
        [row])

/-- toString from the source: the header line (file, line and column
defaulting to 1, level label, message text) followed by the context block,
joined with newlines.  Styling is identity in the model. -/
def toString (m : DiagnosticsMessage) : Chars :=
  let headerLine :=
    m.file ++ ':' :: intChars (m.message.linenumber.getD 1) ++
      ':' :: intChars (m.message.column.getD 1) ++ ": ".toList ++
      levelText m.level ++ ": ".toList ++ m.message.text
  joinNL (headerLine :: m.getContextString)

end DiagnosticsMessage

/-! The extractor (src/parser.ts). -/

/-- getDiagnosticsLevelFromString from the source: error and warning map to
their levels, every other string falls through to Note. -/
def getDiagnosticsLevelFromString (value : Chars) : DiagnosticsLevelEnum :=
  if value = "error".toList then .Error
  else if value = "warning".toList then .Warning
  else .Note

/-- The region shape the SARIF extractor reads: optional start line, start
column and snippet text. -/
structure SarifRegion where
  startLine : Option Int
  startColumn : Option Int
  snippetText : Option Chars
deriving DecidableEq, Repr

/-- The physical location shape the SARIF extractor reads: optional artifact
URI and optional region. -/
structure SarifPhysicalLocation where
  artifactUri : Option Chars
  region : Option SarifRegion
deriving DecidableEq, Repr

/-- A location of a SARIF result: optional physical location. -/
structure SarifLocation where
  physicalLocation : Option SarifPhysicalLocation
deriving DecidableEq, Repr

/-- A SARIF result: optional message text, optional level string, optional
locations list. -/
structure SarifResult where
  messageText : Option Chars
  level : Option Chars
  locations : Option (List SarifLocation)
deriving DecidableEq, Repr

/-- A SARIF run: optional results list. -/
structure SarifRun where
  results : Option (List SarifResult)
deriving DecidableEq, Repr

/-- A SARIF log: list of runs. -/
structure SarifLog where
  runs : List SarifRun
deriving DecidableEq, Repr

/-- The loop body of extractFromSarif for one result and one location: yields
nothing (none) when the result has no message text or the location has no
physical location; otherwise constructs a DiagnosticsMessage with the
artifact URI (or empty string), the region start line and column defaulting
to 1, the level mapped from the level string of the result defaulting to the
string warning, and attaches a present snippet text as a single-string
context at the start line. -/
def extractSarifLocation (result : SarifResult) (location : SarifLocation) :
    Option (Except JsError DiagnosticsMessage) :=
  match result.messageText, location.physicalLocation with
  | none, _ => none
  | some _, none => none
  | some text, some physicalLocation =>
    let region := physicalLocation.region
    let line := (region.bind SarifRegion.startLine).getD 1
    let column := (region.bind SarifRegion.startColumn).getD 1
    let snippet := region.bind SarifRegion.snippetText
    some (do
      let msg ← DiagnosticsMessage.construct
        { file := (physicalLocation.artifactUri).getD []
          level := some (getDiagnosticsLevelFromString (result.level.getD "warning".toList))
          message := { text := text, linenumber := some line, column := some column } }
      match snippet with
      | some s => msg.setContext line (.str s)
      | none => .ok msg)

/-- Collects the yields of a generator body over a list, propagating a thrown
error; a body returning none yields nothing for that element. -/
def collectYields {α β : Type} (f : α → Option (Except JsError β)) :
    List α → Except JsError (List β)
  | [] => .ok []
  | a :: rest =>
    match f a with
    | none => collectYields f rest
    | some (.error e) => .error e
    | some (.ok b) => do
      let bs ← collectYields f rest
      .ok (b :: bs)

/-- extractFromSarif from the source: picks the run (defaulting to the last;
an out of range index crashes in JS when its results property is read,
modelled as an error), then walks results and their locations in order,
yielding via extractSarifLocation. -/
def extractFromSarif (log : SarifLog) (run : Option Int) :
    Except JsError (List DiagnosticsMessage) :=
  let runIndex := run.getD ((log.runs.length : Int) - 1)
  match jsGetElem log.runs runIndex with
  | none => .error ⟨.error, "TypeError: cannot read properties of undefined"⟩
  | some theRun =>
    let results := theRun.results.getD []
    collectYields (fun p => extractSarifLocation p.1 p.2)
      (results.flatMap (fun result =>
        (result.locations.getD []).map (fun location => (result, location))))

/-- The named groups of a line matched against the diagnostic header pattern,
with the two numeric groups already taken through parseInt: file, line
number, column number, message type (one of error, warning, note for the
fixed pattern) and the message remainder.  The regular expression engine is
an external collaborator; extractRaw is parameterized by the classification
it induces on lines. -/
structure RawHeader where
  file : Chars
  lineNumber : Int
  columnNumber : Int
  messageType : Chars
  message : Chars
deriving DecidableEq, Repr

/-- The message extractRaw constructs from a matched header line. -/
def mkHeaderMessage (g : RawHeader) : Except JsError DiagnosticsMessage :=
  DiagnosticsMessage.construct
    { file := g.file
      level := some (getDiagnosticsLevelFromString g.messageType)
      message := { text := g.message, linenumber := some g.lineNumber
                   column := some g.columnNumber } }

/-- The scanner state of extractRaw: the pending message (the Collecting
state when present) and the recorded indentation of the last header line. -/
structure RawState where
  pending : Option DiagnosticsMessage
  matchIndex : Nat
deriving DecidableEq, Repr

/-- One loop iteration of extractRaw on one line, given the classification of
lines by the header pattern.  A matching line replaces the pending message
(the previous pending message, if any, is dropped without being yielded) and
records the leading-whitespace width of the line.  A non-matching line while
a message is pending attaches the line (cut at the recorded indentation) as a
single-line context at the message line number and yields the result,
clearing the pending slot.  A non-matching line with nothing pending is
skipped.  Construction or context errors propagate out of the generator. -/
def extractRawStep (classify : Chars → Option RawHeader) (st : RawState) (line : Chars) :
    Except JsError (RawState × List DiagnosticsMessage) :=
  match classify line with
  | some g => do
    let msg ← mkHeaderMessage g
    .ok (⟨some msg, line.length - (line.dropWhile Char.isWhitespace).length⟩, [])
  | none =>
    match st.pending with
    | some current =>
      match current.message.linenumber with
      | some lineNumber => do
        let updated ← current.setContext lineNumber (.str (line.drop st.matchIndex))
        .ok (⟨none, st.matchIndex⟩, [updated])
      | none => .ok (⟨none, st.matchIndex⟩, [current])
    | none => .ok (st, [])

/-- Folds extractRawStep over the lines, accumulating the yielded messages in
order. -/
def processRawLines (classify : Chars → Option RawHeader) :
    List Chars → RawState → Except JsError (RawState × List DiagnosticsMessage)
  | [], st => .ok (st, [])
  | line :: rest, st => do
    let (st1, out1) ← extractRawStep classify st line
    let (st2, out2) ← processRawLines classify rest st1
    .ok (st2, out1 ++ out2)

/-- extractRaw from the source, over an already-read list of lines (the
readline collaborator) and the classification induced by the fixed header
pattern (the regexp collaborator): runs the scanner from the idle state and,
at end of input, yields the still-pending message as is. -/
def extractRaw (classify : Chars → Option RawHeader) (lines : List Chars) :
    Except JsError (List DiagnosticsMessage) := do
  let (st, out) ← processRawLines classify lines ⟨none, 0⟩
  match st.pending with
  | some m => .ok (out ++ [m])
  | none => .ok out

/-! Analysis vocabulary for the fix-it hint claims.  These predicates express
the hypotheses the claims place on a hint set: strict separation (sorted and
non-overlapping with inclusive boundaries rejected, as addFixitHint enforces
for hints added in ascending order), well-formed ranges, ranges inside the
selected line, and the net length change of one edit. -/

/-- hintGap a b holds when the closed range of a ends strictly before the
index of b: the separation addFixitHint demands between an earlier and a
later hint. -/
abbrev hintGap (a b : FixItHint) : Prop :=
  a.range.index + a.range.length < b.range.index

/-- hintValid: the range has a 1-based index and a non-negative length. -/
abbrev hintValid (f : FixItHint) : Prop :=
  1 ≤ f.range.index ∧ 0 ≤ f.range.length

/-- hintInBounds: the range lies inside the given line. -/
abbrev hintInBounds (s : Chars) (f : FixItHint) : Prop :=
  f.range.index - 1 + f.range.length ≤ (s.length : Int)

/-- editDelta: the net length change the edit of this hint causes on the
string it is applied to. -/
def editDelta (f : FixItHint) : Int :=
  match f.modification with
  | .INSERT => ((f.text.getD undefChars).length : Int)
  | .REMOVE => - f.range.length
  | .REPLACE => ((f.text.getD undefChars).length : Int) - f.range.length
  | .DEFAULT => 0

/-- hintPos: the 0-based character position of the hint on the line. -/
def hintPos (f : FixItHint) : Nat := (f.range.index - 1).toNat

/-- editIns: the characters the edit of this hint splices in. -/
def editIns (f : FixItHint) : Chars :=
  match f.modification with
  | .INSERT => f.text.getD undefChars
  | .REMOVE => []
  | .REPLACE => f.text.getD undefChars
  | .DEFAULT => []

/-- editDel: the number of characters the edit of this hint deletes. -/
def editDel (f : FixItHint) : Nat :=
  match f.modification with
  | .INSERT => 0
  | .REMOVE => f.range.length.toNat
  | .REPLACE => f.range.length.toNat
  | .DEFAULT => 0

/-! Concrete scenarios used as evidence below, each assembled through the
public construction API of the library. -/

/-- Scenario for claim C1: line abcd, a length-changing REPLACE at index 1
followed by a REMOVE at index 3 (accepted as non-overlapping). -/
def exC1 : Except JsError DiagnosticsMessage := do
  let m ← DiagnosticsMessage.construct ⟨"f.ts".toList, some .Error, ⟨"t".toList, some 1, some 1⟩⟩
  let m ← m.setContext 1 (.arr ["abcd".toList])
  let h1 ← FixItHint.createReplacement ⟨1, 1⟩ "XY".toList
  let h2 ← FixItHint.createRemoval ⟨3, 1⟩
  let m ← m.addFixitHint h1
  m.addFixitHint h2

/-- Scenario for claim C2: a stored hint at index 5 and a new hint whose
range 3..8 covers it from the left. -/
def exC2 : Except JsError DiagnosticsMessage := do
  let m ← DiagnosticsMessage.construct ⟨"t".toList, none, ⟨"S".toList, some 1, some 1⟩⟩
  let m ← m.setContext 1 (.arr ["0123456789".toList])
  let h1 ← FixItHint.createRemoval ⟨5, 1⟩
  let h2 ← FixItHint.createRemoval ⟨3, 5⟩
  let m ← m.addFixitHint h1
  m.addFixitHint h2

/-- Scenario for claim C3: two identical context lines and one insertion on
the first of them. -/
def exC3 : Except JsError DiagnosticsMessage := do
  let m ← DiagnosticsMessage.construct ⟨"f".toList, none, ⟨"t".toList, some 1, some 1⟩⟩
  let m ← m.setContext 1 (.arr ["ab".toList, "ab".toList])
  let h1 ← FixItHint.createInsertion 1 "X".toList
  m.addFixitHint h1

/-- Scenario for claim C4, mirroring the repository test named Multiple FixIt
hints: an insertion of six characters followed by a removal of two. -/
def exC4 : Except JsError DiagnosticsMessage := do
  let m ← DiagnosticsMessage.construct
    ⟨"example.py".toList, some .Error, ⟨"Multiple".toList, some 1, some 1⟩⟩
  let m ← m.setContext 1 (.str "Line 1\nLine 2\nLine 3".toList)
  let h1 ← FixItHint.createInsertion 1 "First ".toList
  let h2 ← FixItHint.createRemoval ⟨5, 2⟩
  let m ← m.addFixitHint h1
  m.addFixitHint h2

/-- Scenario for claim C6: message line 3, context given as the three
character single-line string abc starting at line 1. -/
def exC6 : Except JsError DiagnosticsMessage := do
  let m ← DiagnosticsMessage.construct ⟨"test.ts".toList, none, ⟨"S".toList, some 3, some 1⟩⟩
  m.setContext 1 (.str "abc".toList)

/-- Input of the end-to-end scenario of the specification for claim C5. -/
def exC5data : IDiagnosticsMessage :=
  ⟨"example".toList, some .Error, ⟨"Subject".toList, none, none⟩⟩

/-- Message constructed from exC5data. -/
def exC5msg : DiagnosticsMessage :=
  ⟨"example".toList, .Error, ⟨"Subject".toList, none, none⟩, none, []⟩



/-- Scenario for the witness of the amended claim C1: a length-preserving
REPLACE at index 1 followed by an INSERT at index 3 on the line abcd. -/
def exC1w : Except JsError DiagnosticsMessage := do
  let m ← DiagnosticsMessage.construct
    ⟨"f.ts".toList, some .Error, ⟨"t".toList, some 1, some 1⟩⟩
  let m ← m.setContext 1 (.arr ["abcd".toList])
  let h1 ← FixItHint.createReplacement ⟨1, 1⟩ "Z".toList
  let h2 ← FixItHint.createInsertion 3 "Q".toList
  let m ← m.addFixitHint h1
  m.addFixitHint h2

/-- Message built by exC1w. -/
def mC1w : DiagnosticsMessage :=
  ⟨"f.ts".toList, .Error, ⟨"t".toList, some 1, some 1⟩,
    some ⟨1, ["abcd".toList]⟩,
    [⟨.REPLACE, ⟨1, 1⟩, some "Z".toList⟩, ⟨.INSERT, ⟨3, 1⟩, some "Q".toList⟩]⟩

/-- Scenario for the witness of the amended claim C3: three pairwise distinct
context lines with the message on the middle one and one insertion. -/
def exC3w : Except JsError DiagnosticsMessage := do
  let m ← DiagnosticsMessage.construct ⟨"f".toList, none, ⟨"t".toList, some 2, some 1⟩⟩
  let m ← m.setContext 1 (.arr ["aa".toList, "ab".toList, "ac".toList])
  let h1 ← FixItHint.createInsertion 1 "X".toList
  m.addFixitHint h1

/-- Message built by exC3w. -/
def mC3w : DiagnosticsMessage :=
  ⟨"f".toList, .Note, ⟨"t".toList, some 2, some 1⟩,
    some ⟨1, ["aa".toList, "ab".toList, "ac".toList]⟩,
    [⟨.INSERT, ⟨1, 1⟩, some "X".toList⟩]⟩

/-- Physical location of the claim C7 scenario: artifact a.c, start line 3,
start column 2, no snippet. -/
def plC7 : SarifPhysicalLocation := ⟨some "a.c".toList, some ⟨some 3, some 2, none⟩⟩

/-- Location of the claim C7 scenario. -/
def locC7 : SarifLocation := ⟨some plC7⟩

/-- Result of the claim C7 scenario, with the unrecognized level string
info. -/
def resC7 : SarifResult := ⟨some "boom".toList, some "info".toList, some [locC7]⟩

/-- Run of the claim C7 scenario. -/
def runC7 : SarifRun := ⟨some [resC7]⟩

/-- Log of the claim C7 scenario. -/
def exC7log : SarifLog := ⟨[runC7]⟩

/-- Message the extractor yields for the claim C7 scenario. -/
def mC7 : DiagnosticsMessage :=
  ⟨"a.c".toList, .Note, ⟨"boom".toList, some 3, some 2⟩, none, []⟩

/-- Classification of lines for the claim C8 witness: two fixed header lines
in the shape the diagnostic header pattern recognizes, everything else a
non-header line. -/
def clC8 : Chars → Option RawHeader := fun l =>
  if l = "a.c:1:2: error: boom".toList then
    some ⟨"a.c".toList, 1, 2, "error".toList, "boom".toList⟩
  else if l = "b.c:3:4: note: pow".toList then
    some ⟨"b.c".toList, 3, 4, "note".toList, "pow".toList⟩
  else none

/-- Message of the first header of the claim C8 witness. -/
def mC8a : DiagnosticsMessage :=
  ⟨"a.c".toList, .Error, ⟨"boom".toList, some 1, some 2⟩, none, []⟩

/-- Message of the second header of the claim C8 witness. -/
def mC8b : DiagnosticsMessage :=
  ⟨"b.c".toList, .Note, ⟨"pow".toList, some 3, some 4⟩, none, []⟩

/-! Helper lemmas about the constructors and mutators. -/

/-- setFile success passes the file through and touches nothing else. -/
theorem setFile_ok_eq (m m2 : DiagnosticsMessage) (file : Chars)
    (h : m.setFile file = .ok m2) : m2 = { m with file := file } := by
  unfold DiagnosticsMessage.setFile at h
  split at h
  · simp at h
  · split at h
    · simp at h
    · injection h with h
      exact h.symm

/-- setMessage success passes the message through and touches nothing else. -/
theorem setMessage_ok_eq (m m2 : DiagnosticsMessage) (message : DiagnosticsMessageType)
    (h : m.setMessage message = .ok m2) : m2 = { m with message := message } := by
  unfold DiagnosticsMessage.setMessage at h
  split at h
  · simp at h
  · split at h
    · simp at h
    · split at h
      · simp at h
      · injection h with h
        exact h.symm

/-- Construction success determines the new message completely: the fields
are passed through, the level defaults to Note, and the fresh message has no
context and no hints. -/
theorem construct_ok_eq (data : IDiagnosticsMessage) (m : DiagnosticsMessage)
    (h : DiagnosticsMessage.construct data = .ok m) :
    m = ⟨data.file, data.level.getD .Note, data.message, none, []⟩ := by
  unfold DiagnosticsMessage.construct at h
  simp only [bind, Except.bind] at h
  cases hsf : DiagnosticsMessage.setFile
      ⟨[], .Note, ⟨[], none, none⟩, none, []⟩ data.file with
  | error e => rw [hsf] at h; simp at h
  | ok v =>
    rw [hsf] at h
    have hv := setFile_ok_eq _ _ _ hsf
    have hm := setMessage_ok_eq _ _ _ h
    subst hv
    subst hm
    rfl

/-- setContext leaves every field except the context unchanged when it
succeeds. -/
theorem setContext_ok_fields (m m2 : DiagnosticsMessage) (linenumber : Int)
    (lines : ContextLines) (h : m.setContext linenumber lines = .ok m2) :
    m2.file = m.file ∧ m2.level = m.level ∧ m2.message = m.message ∧
      m2.fixitHints = m.fixitHints := by
  unfold DiagnosticsMessage.setContext at h
  split at h
  · simp at h
  · split at h
    · simp at h
    · injection h with h
      rw [← h]
      exact ⟨rfl, rfl, rfl, rfl⟩

/-! Lemmas about single edits, leading to the amended claim C1: edits at
separated positions commute when the left one preserves the string length. -/

/-- A length-preserving hint splices in exactly as many characters as it
deletes. -/
theorem editIns_length (f : FixItHint) (h : editDelta f = 0) (h2 : 0 ≤ f.range.length) :
    (editIns f).length = editDel f := by
  obtain ⟨mod, ⟨idx, len⟩, text⟩ := f
  cases mod <;> simp_all [editIns, editDel, editDelta]
  all_goals omega

/-- Normal form of one edit under a valid range: take the position, splice
the inserted characters, drop the deleted ones. -/
theorem applyHintTo_normal (s : Chars) (f : FixItHint) (hv : hintValid f)
    (hnd : f.modification ≠ .DEFAULT) :
    applyHintTo s f = s.take (hintPos f) ++ editIns f ++ s.drop (hintPos f + editDel f) := by
  obtain ⟨mod, ⟨idx, len⟩, text⟩ := f
  obtain ⟨h1, h2⟩ := hv
  simp only [hintValid] at h1 h2
  cases mod <;>
    simp only [applyHintTo, hintPos, editIns, editDel, jsTake, jsDrop]
  · exact absurd rfl hnd
  · rw [if_neg (by omega), if_neg (by omega)]
    simp
  · rw [if_neg (by omega), if_neg (by omega)]
    rw [show ((idx : Int) - 1 + len).toNat = ((idx : Int) - 1).toNat + (len : Int).toNat by
      omega]
    simp
  · rw [if_neg (by omega), if_neg (by omega)]
    rw [show ((idx : Int) - 1 + len).toNat = ((idx : Int) - 1).toNat + (len : Int).toNat by
      omega]

/-- A length-preserving hint that is not a REPLACE edits nothing. -/
theorem applyHintTo_identity (s : Chars) (f : FixItHint) (hv : hintValid f)
    (hpres : editDelta f = 0) (hnr : f.modification ≠ .REPLACE) :
    applyHintTo s f = s := by
  obtain ⟨mod, ⟨idx, len⟩, text⟩ := f
  obtain ⟨h1, h2⟩ := hv
  simp only [hintValid] at h1 h2
  cases mod <;> simp only [editDelta] at hpres <;>
    simp only [applyHintTo, jsTake, jsDrop]
  · have ht : text.getD undefChars = [] := List.length_eq_zero.mp (by exact_mod_cast hpres)
    have hcond : ¬((idx : Int) - 1 < 0) := by omega
    rw [ht, if_neg hcond, if_neg hcond]
    simp
  · have hl : (len : Int) = 0 := by omega
    have hcond : ¬((idx : Int) - 1 < 0) := by omega
    have hcond2 : ¬((idx : Int) - 1 + len < 0) := by omega
    rw [if_neg hcond, if_neg hcond2, hl]
    simp
  · exact absurd rfl hnr

/-- Core commutation: a length-preserving splice at position p commutes with
any edit at a position at or beyond the end of its range. -/
theorem take_edit_comm (s t u : Chars) (p q d : Nat)
    (hq : p + t.length ≤ q) (hs : p + t.length ≤ s.length) :
    (s.take p ++ t ++ s.drop (p + t.length)).take q ++ u ++
      (s.take p ++ t ++ s.drop (p + t.length)).drop (q + d) =
    (s.take q ++ u ++ s.drop (q + d)).take p ++ t ++
      (s.take q ++ u ++ s.drop (q + d)).drop (p + t.length) := by
  have hp : p ≤ s.length := le_trans (Nat.le_add_right p t.length) hs
  have hpq : p ≤ q := le_trans (Nat.le_add_right p t.length) hq
  simp only [List.take_append_eq_append_take, List.drop_append_eq_append_drop,
    List.length_take, List.length_append, List.take_take, List.drop_take,
    List.drop_drop]
  have z1 : p - (q + d) = 0 := by omega
  have z2 : p - q ⊓ s.length = 0 := by omega
  have z3 : p - (q ⊓ s.length + u.length) = 0 := by omega
  have z4 : p + t.length - q ⊓ s.length = 0 := by omega
  have z5 : q + d + (p + t.length - (q ⊓ s.length + u.length)) = q + d := by omega
  have z6 : p + t.length + (q + d - (p + t.length)) = q + d := by omega
  simp only [Nat.min_eq_right hpq, Nat.min_eq_left hp, z1, z2, z3, z4, z5, z6,
    List.take_zero, List.drop_zero, List.nil_append, List.append_nil,
    List.take_of_length_le (show t.length ≤ q - p by omega),
    List.drop_eq_nil_of_le (show t.length ≤ q + d - p by omega)]
  simp [List.append_assoc]
  omega

/-- A DEFAULT hint is the identity edit. -/
theorem applyHintTo_default_id (x : Chars) (g : FixItHint)
    (hgd : g.modification = .DEFAULT) : applyHintTo x g = x := by
  simp only [applyHintTo, hgd]

/-- Two hint edits commute when the earlier one preserves length, lies inside
the line and ends strictly before the later one begins. -/
theorem applyHintTo_comm (s : Chars) (f g : FixItHint) (hfv : hintValid f)
    (hgv : hintValid g) (hpres : editDelta f = 0) (hfb : hintInBounds s f)
    (hgap : hintGap f g) :
    applyHintTo (applyHintTo s f) g = applyHintTo (applyHintTo s g) f := by
  by_cases hfr : f.modification = .REPLACE
  · by_cases hgd : g.modification = .DEFAULT
    · rw [applyHintTo_default_id _ g hgd, applyHintTo_default_id _ g hgd]
    · have hfl : (editIns f).length = editDel f := editIns_length f hpres hfv.2
      have hdel : editDel f = f.range.length.toNat := by simp only [editDel, hfr]
      have hgap2 : f.range.index + f.range.length < g.range.index := hgap
      have hfb2 : f.range.index - 1 + f.range.length ≤ (s.length : Int) := hfb
      have hf1 : 1 ≤ f.range.index := hfv.1
      have hf2 : 0 ≤ f.range.length := hfv.2
      have hg1 : 1 ≤ g.range.index := hgv.1
      have hord : hintPos f + (editIns f).length ≤ hintPos g := by
        rw [hfl, hdel]
        simp only [hintPos]
        omega
      have hbnd : hintPos f + (editIns f).length ≤ s.length := by
        rw [hfl, hdel]
        simp only [hintPos]
        omega
      have hfnd : f.modification ≠ .DEFAULT := by simp [hfr]
      rw [applyHintTo_normal s f hfv hfnd, applyHintTo_normal s g hgv hgd,
        applyHintTo_normal _ g hgv hgd, applyHintTo_normal _ f hfv hfnd]
      rw [← hfl]
      exact take_edit_comm s (editIns f) (editIns g) (hintPos f) (hintPos g)
        (editDel g) hord hbnd
  · rw [applyHintTo_identity s f hfv hpres hfr,
      applyHintTo_identity (applyHintTo s g) f hfv hpres hfr]

/-- An edit keeps at least its own starting position of the string. -/
theorem applyHintTo_length_ge (s : Chars) (g : FixItHint) (hgv : hintValid g) :
    min (hintPos g) s.length ≤ (applyHintTo s g).length := by
  by_cases hgd : g.modification = .DEFAULT
  · rw [applyHintTo_default_id s g hgd]
    omega
  · rw [applyHintTo_normal s g hgv hgd]
    simp only [List.length_append, List.length_take]
    omega

/-- Applying a later hint keeps an earlier in-bounds hint in bounds. -/
theorem hintInBounds_applyHintTo (s : Chars) (f g : FixItHint) (hgv : hintValid g)
    (hgap : hintGap f g) (hfv : hintValid f) (hfb : hintInBounds s f) :
    hintInBounds (applyHintTo s g) f := by
  have h := applyHintTo_length_ge s g hgv
  have hgap2 : f.range.index + f.range.length < g.range.index := hgap
  have hfb2 : f.range.index - 1 + f.range.length ≤ (s.length : Int) := hfb
  have hg1 : 1 ≤ g.range.index := hgv.1
  have hp : hintPos g = (g.range.index - 1).toNat := rfl
  show f.range.index - 1 + f.range.length ≤ ((applyHintTo s g).length : Int)
  omega

/-- A length-preserving hint moves across a fold of hints lying strictly to
its right. -/
theorem foldl_applyHintTo_push (rest : List FixItHint) (s : Chars) (f : FixItHint)
    (hfv : hintValid f) (hpres : editDelta f = 0) (hfb : hintInBounds s f)
    (hgap : ∀ g ∈ rest, hintGap f g) (hgv : ∀ g ∈ rest, hintValid g) :
    List.foldl applyHintTo (applyHintTo s f) rest =
      applyHintTo (List.foldl applyHintTo s rest) f := by
  induction rest generalizing s with
  | nil => rfl
  | cons g rest2 ih =>
    simp only [List.foldl_cons]
    rw [applyHintTo_comm s f g hfv (hgv g (by simp)) hpres hfb (hgap g (by simp))]
    exact ih (applyHintTo s g)
      (hintInBounds_applyHintTo s f g (hgv g (by simp)) (hgap g (by simp)) hfv hfb)
      (fun x hx => hgap x (by simp [hx]))
      (fun x hx => hgv x (by simp [hx]))

/-- For separated, valid, in-bounds hints of which all but the last preserve
the line length, applying the hints left to right agrees with applying them
right to left, that is, with applying every edit at its original position. -/
theorem foldl_eq_foldr_applyHintTo (hints : List FixItHint) (s : Chars)
    (hpair : hints.Pairwise hintGap) (hval : ∀ f ∈ hints, hintValid f)
    (hbound : ∀ f ∈ hints, hintInBounds s f)
    (hpres : ∀ f ∈ hints.dropLast, editDelta f = 0) :
    hints.foldl applyHintTo s = hints.foldr (fun f x => applyHintTo x f) s := by
  induction hints with
  | nil => rfl
  | cons f rest ih =>
    cases rest with
    | nil => rfl
    | cons g rest2 =>
      have hf0 : editDelta f = 0 := hpres f (by simp)
      rw [List.foldl_cons, List.foldr_cons]
      rw [foldl_applyHintTo_push (g :: rest2) s f (hval f (by simp)) hf0
        (hbound f (by simp))
        (fun x hx => (List.pairwise_cons.mp hpair).1 x hx)
        (fun x hx => hval x (by simp [hx]))]
      rw [ih (List.pairwise_cons.mp hpair).2
        (fun x hx => hval x (by simp [hx]))
        (fun x hx => hbound x (by simp [hx]))
        (fun x hx => hpres x (by simp [hx]))]

/-- The option-valued fold of applyFixitHints over a present line is the
plain fold. -/
theorem foldl_map_some (hints : List FixItHint) (s : Chars) :
    hints.foldl (fun r f => r.map (fun x => applyHintTo x f)) (some s) =
      some (hints.foldl applyHintTo s) := by
  induction hints generalizing s with
  | nil => rfl
  | cons f rest ih =>
    simp only [List.foldl_cons, Option.map_some]
    exact ih _

/-- The option-valued foldr of specApplyFixitHints over a present line is the
plain foldr. -/
theorem foldr_map_some (hints : List FixItHint) (s : Chars) :
    hints.foldr (fun f r => r.map (fun x => applyHintTo x f)) (some s) =
      some (hints.foldr (fun f x => applyHintTo x f) s) := by
  induction hints with
  | nil => rfl
  | cons f rest ih =>
    simp only [List.foldr_cons, ih]
    rfl

/-- Array subscription at the length of the left part selects the middle
element. -/
theorem jsGetElem_append_mid {α : Type} (pre post : List α) (a : α) :
    jsGetElem (pre ++ a :: post) ((pre.length : Nat) : Int) = some a := by
  unfold jsGetElem
  rw [if_pos (by positivity)]
  rw [Int.toNat_natCast]
  rw [List.getElem?_append_right (le_refl pre.length)]
  simp

/-- Context lines that differ from the selected original line are emitted as
plain context lines of the hunk. -/
theorem flatMap_patch_space (lines : List Chars) (original expected : Option Chars)
    (h : ∀ l ∈ lines, original ≠ some l) :
    (lines.flatMap (fun line =>
      if original = some line ∧ original ≠ expected
      then ['-' :: line, '+' :: expected.getD undefChars]
      else [' ' :: line])) = lines.map (fun l => ' ' :: l) := by
  induction lines with
  | nil => rfl
  | cons l rest ih =>
    rw [List.flatMap_cons, if_neg (fun hc => h l (by simp) hc.1)]
    rw [ih (fun x hx => h x (by simp [hx]))]
    rfl

/-- Every element of the input on which the generator body yields
successfully contributes its yield to a successful collection. -/
theorem collectYields_mem {α β : Type} (f : α → Option (Except JsError β))
    (l : List α) (bs : List β) (hok : collectYields f l = .ok bs) (a : α)
    (ha : a ∈ l) (r : Except JsError β) (hr : f a = some r) :
    ∃ b, r = .ok b ∧ b ∈ bs := by
  induction l generalizing bs with
  | nil => cases ha
  | cons x rest ih =>
    simp only [collectYields] at hok
    rcases List.mem_cons.mp ha with hax | harest
    · subst hax
      rw [hr] at hok
      cases r with
      | error e => simp at hok
      | ok b =>
        simp only [bind, Except.bind] at hok
        cases hrest : collectYields f rest with
        | error e => rw [hrest] at hok; simp at hok
        | ok bs2 =>
          rw [hrest] at hok
          simp only [Except.ok.injEq] at hok
          exact ⟨b, rfl, by rw [← hok]; simp⟩
    · cases hfx : f x with
      | none =>
        rw [hfx] at hok
        exact ih bs hok harest
      | some rx =>
        rw [hfx] at hok
        cases rx with
        | error e => simp at hok
        | ok b =>
          simp only [bind, Except.bind] at hok
          cases hrest : collectYields f rest with
          | error e => rw [hrest] at hok; simp at hok
          | ok bs2 =>
            rw [hrest] at hok
            simp only [Except.ok.injEq] at hok
            obtain ⟨b2, hb2, hmem⟩ := ih bs2 hrest harest
            exact ⟨b2, hb2, by rw [← hok]; simp [hmem]⟩

/-- The level mapping applied to an optional level string with the default
warning: absent maps to Warning, error and warning map to their levels, any
other string falls through to Note. -/
theorem level_of_optional_string (x : Option Chars) :
    getDiagnosticsLevelFromString (x.getD "warning".toList) =
      (match x with
        | none => DiagnosticsLevelEnum.Warning
        | some s => if s = "error".toList then DiagnosticsLevelEnum.Error
            else if s = "warning".toList then DiagnosticsLevelEnum.Warning
            else DiagnosticsLevelEnum.Note) := by
  cases x with
  | none => decide
  | some s => rfl

/-- The scanner fold splits over concatenation of the line list. -/
theorem processRawLines_append (classify : Chars → Option RawHeader)
    (xs ys : List Chars) (st : RawState) :
    processRawLines classify (xs ++ ys) st =
      (processRawLines classify xs st).bind (fun r =>
        (processRawLines classify ys r.1).bind (fun r2 => .ok (r2.1, r.2 ++ r2.2))) := by
  induction xs generalizing st with
  | nil =>
    simp only [List.nil_append, processRawLines, Except.bind]
    cases h : processRawLines classify ys st with
    | error e => simp [Except.bind, h]
    | ok r => simp [Except.bind, h]
  | cons l xs ih =>
    simp only [List.cons_append, processRawLines, bind, Except.bind]
    cases hstep : extractRawStep classify st l with
    | error e => rfl
    | ok r =>
      simp only [List.append_eq]
      rw [ih r.1]
      cases hxs : processRawLines classify xs r.1 with
      | error e => simp [Except.bind, hxs]
      | ok r2 =>
        cases hys : processRawLines classify ys r2.1 with
        | error e => simp [Except.bind, hxs, hys]
        | ok r3 => simp [Except.bind, hxs, hys, List.append_assoc]

/-! Claim C9 (corrected). -/

/-- Claim C9, amended: FixItHint construction fails exactly when an INSERT or
REPLACE hint lacks text, when an INSERT hint has range length greater than 1,
or when a REMOVE or DEFAULT hint carries text; in every other case it
succeeds and stores the arguments unchanged.  The original claim also
demanded failure for INSERT with range length below 1, which the code
accepts. -/
theorem fixithint_construct_ok_iff (modification : ModificationType)
    (range : RangeType) (text : Option Chars) :
    (FixItHint.construct modification range text = .ok ⟨modification, range, text⟩ ↔
      ¬ ((modification = .INSERT ∧ (text = none ∨ range.length > 1)) ∨
        (modification = .REPLACE ∧ text = none) ∨
        ((modification = .REMOVE ∨ modification = .DEFAULT) ∧ text ≠ none))) ∧
    ((∃ e, FixItHint.construct modification range text = .error e) ↔
      ((modification = .INSERT ∧ (text = none ∨ range.length > 1)) ∨
        (modification = .REPLACE ∧ text = none) ∨
        ((modification = .REMOVE ∨ modification = .DEFAULT) ∧ text ≠ none))) := by
  unfold FixItHint.construct
  cases modification <;> rcases text with - | t <;> split_ifs <;> simp_all

/-- Claim C9, counterexample: an INSERT hint with range length 0 (which is
not 1) is accepted by the constructor, while the claim demands failure. -/
theorem fixithint_insert_length_zero_accepted :
    FixItHint.construct .INSERT ⟨1, 0⟩ (some "x".toList) =
      .ok ⟨.INSERT, ⟨1, 0⟩, some "x".toList⟩ ∧ (0 : Int) ≠ 1 := by
  exact ⟨rfl, by decide⟩

/-! Claim C5 (confirmed). -/

/-- Claim C5: a successfully constructed message (which has no context)
renders as the single header line: file, colon, line number defaulting to 1,
colon, column defaulting to 1, colon and space, the level label, colon and
space, the message text. -/
theorem toString_without_context (data : IDiagnosticsMessage) (m : DiagnosticsMessage)
    (h : DiagnosticsMessage.construct data = .ok m) :
    m.toString = data.file ++ ':' :: intChars (data.message.linenumber.getD 1) ++
      ':' :: intChars (data.message.column.getD 1) ++ ": ".toList ++
      levelText (data.level.getD .Note) ++ ": ".toList ++ data.message.text := by
  rw [construct_ok_eq data m h]
  simp [DiagnosticsMessage.toString, DiagnosticsMessage.getContextString, joinNL]

/-- Witness for claim C5: the end-to-end scenario of the specification with
file example, level Error and message Subject. -/
theorem toString_without_context_witness :
    DiagnosticsMessage.construct exC5data = .ok exC5msg ∧
      exC5msg.toString = "example:1:1: error: Subject".toList := by
  have h1 : DiagnosticsMessage.construct exC5data = .ok exC5msg := rfl
  exact ⟨h1, (toString_without_context exC5data exC5msg h1).trans (by decide)⟩

/-! Claim C10 (confirmed). -/

/-- Claim C10: with a context and no stored hints, applyFixitHints returns
the untouched context line at index message line minus context start line. -/
theorem applyFixitHints_no_hints (m : DiagnosticsMessage)
    (context : DiagnosticsContextType) (hctx : m.context = some context)
    (hh : m.fixitHints = []) (idx : Nat)
    (hidx : m.message.linenumber.getD 1 - context.linenumber = (idx : Int))
    (hlt : idx < context.lines.length) :
    m.applyFixitHints = .ok (some (context.lines.get ⟨idx, hlt⟩)) := by
  simp only [DiagnosticsMessage.applyFixitHints, hctx, hh, hidx, jsGetElem,
    List.foldl_nil]
  simp [List.getElem?_eq_getElem hlt]

/-- Witness for claim C10 at a three-line context with the message on the
middle line. -/
theorem applyFixitHints_no_hints_witness :
    (⟨"t".toList, .Note, ⟨"S".toList, some 2, some 1⟩,
        some ⟨1, ["Line 1".toList, "Line 2".toList, "Line 3".toList]⟩, []⟩ :
      DiagnosticsMessage).applyFixitHints = .ok (some "Line 2".toList) := by
  have h := applyFixitHints_no_hints
    ⟨"t".toList, .Note, ⟨"S".toList, some 2, some 1⟩,
      some ⟨1, ["Line 1".toList, "Line 2".toList, "Line 3".toList]⟩, []⟩
    ⟨1, ["Line 1".toList, "Line 2".toList, "Line 3".toList]⟩
    rfl rfl 1 (by decide) (by decide)
  exact h.trans rfl

/-! Claim C2 (code bug). -/

/-- Claim C2, evidence: with a hint of range index 5 and length 1 stored, a
new hint of range index 3 and length 5 is accepted even though the stored
index 5 lies inside the closed interval 3 to 8 of the new hint; the overlap
test of addFixitHint looks in one direction only. -/
theorem addFixitHint_reverse_overlap_accepted :
    exC2.map (fun m => m.fixitHints.map FixItHint.range) =
      .ok [⟨3, 5⟩, ⟨5, 1⟩] ∧ ((3 : Int) ≤ 5 ∧ (5 : Int) ≤ 3 + 5) := by
  exact ⟨rfl, by decide, by decide⟩

/-! Claim C6 (code bug). -/

/-- Claim C6, evidence: setContext with the single three character string abc
and start line 1 accepts a message on line 3, because the range test is made
against the character count of the raw string (3) rather than against the
number of context lines after splitting (1); line 3 is outside the stored
one-line context. -/
theorem setContext_string_uses_char_count :
    exC6.map (fun m => (m.message.linenumber, m.context)) =
      .ok (some 3, some ⟨1, ["abc".toList]⟩) ∧ ¬ ((3 : Int) ≤ 1 + 1 - 1) := by
  exact ⟨rfl, by decide⟩

/-! Claim C4 (code bug). -/

/-- Claim C4, evidence: createPatch re-indexes the stored hint objects (the
source copies only the array, not the hints), so after one call the second
stored hint has moved from index 5 to index 11, and a second createPatch call
on the same message produces a different hunk. -/
theorem createPatch_mutates_stored_hints :
    ∃ m r1 r2, exC4 = .ok m ∧ createPatch m = .ok r1 ∧
      r1.2.fixitHints.map FixItHint.range ≠ m.fixitHints.map FixItHint.range ∧
      createPatch r1.2 = .ok r2 ∧ r2.1 ≠ r1.1 := by
  refine ⟨_, _, _, rfl, rfl, by decide, rfl, by decide⟩

/-! Claim C3 (corrected): counterexample. -/

/-- Claim C3, counterexample: with the duplicated context line ab and an
insertion changing the selected first line, the hunk contains two removed and
two added lines, because the source marks every context line that compares
equal to the selected original, not the selected position alone. -/
theorem createPatch_duplicate_line_two_pairs :
    (exC3.bind createPatch).map Prod.fst =
      .ok ["@@ -1,2 +1,2 @@".toList, "-ab".toList, "+Xab".toList,
        "-ab".toList, "+Xab".toList] := by
  rfl

/-- Claim C3, amended: for a message with a context in which no other
context line has the same content as the selected line, createPatch produces
exactly one hunk spanning the full context window with the stated header, in
which at most one removed and added pair appears, at the position of the
selected line (the pair is present exactly when the hints change the line),
and every other context line appears exactly once as an unchanged line
prefixed with a space.  The unamended claim allowed repeated lines, but the
source marks every context line whose content equals the selected original,
so each duplicate yields a further removed and added pair (see the
counterexample). -/
theorem createPatch_unique_selected_line (m : DiagnosticsMessage)
    (context : DiagnosticsContextType) (pre post : List Chars) (orig : Chars)
    (hctx : m.context = some context)
    (hlines : context.lines = pre ++ orig :: post)
    (hsel : m.message.linenumber.getD 1 - context.linenumber = (pre.length : Int))
    (hpre : orig ∉ pre) (hpost : orig ∉ post) :
    createPatch m = .ok (
      ("@@ -".toList ++ intChars context.linenumber ++ ",".toList ++
        natChars context.lines.length ++ " +".toList ++
        intChars context.linenumber ++ ",".toList ++
        natChars context.lines.length ++ " @@".toList) ::
      (pre.map (fun l => ' ' :: l) ++
        (if (applyHintsWithOffset m.fixitHints (some orig) 0).1 = some orig
          then [' ' :: orig]
          else ['-' :: orig,
            '+' :: ((applyHintsWithOffset m.fixitHints (some orig) 0).1.getD undefChars)]) ++
        post.map (fun l => ' ' :: l)),
      { m with fixitHints := (applyHintsWithOffset m.fixitHints (some orig) 0).2.2 }) := by
  unfold createPatch
  simp only [hctx, hsel]
  rw [hlines, jsGetElem_append_mid pre post orig]
  rw [List.flatMap_append, List.flatMap_cons]
  rw [flatMap_patch_space pre (some orig) (applyHintsWithOffset m.fixitHints (some orig) 0).1
    (fun x hx heq => hpre (by rw [Option.some_inj.mp heq]; exact hx))]
  rw [flatMap_patch_space post (some orig) (applyHintsWithOffset m.fixitHints (some orig) 0).1
    (fun x hx heq => hpost (by rw [Option.some_inj.mp heq]; exact hx))]
  by_cases hexp : (applyHintsWithOffset m.fixitHints (some orig) 0).1 = some orig
  · rw [if_pos hexp, if_neg (fun hc => hc.2 hexp.symm)]
    simp [hlines]
  · rw [if_neg hexp, if_pos ⟨rfl, fun hc => hexp hc.symm⟩]
    simp [hlines]

/-- Witness for the amended claim C3. -/
theorem createPatch_unique_selected_line_witness :
    exC3w = .ok mC3w ∧
      createPatch mC3w = .ok (
        ["@@ -1,3 +1,3 @@".toList, " aa".toList, "-ab".toList, "+Xab".toList,
          " ac".toList], mC3w) := by
  refine ⟨rfl, ?_⟩
  have h := createPatch_unique_selected_line mC3w ⟨1, ["aa".toList, "ab".toList, "ac".toList]⟩
    ["aa".toList] ["ac".toList] "ab".toList rfl rfl (by decide) (by decide) (by decide)
  exact h.trans (by rfl)

/-! Claim C1 (corrected): counterexample. -/

/-- Claim C1, counterexample: after the length-changing REPLACE of character
1 by XY, the REMOVE at index 3 is applied to the already-shifted running
string, deleting the original character at position 2 instead of position 3;
the original-position reading of the claim demands XYbd, the code returns
XYcd. -/
theorem applyFixitHints_not_original_positions :
    exC1.bind DiagnosticsMessage.applyFixitHints = .ok (some "XYcd".toList) ∧
      exC1.bind specApplyFixitHints = .ok (some "XYbd".toList) ∧
      ("XYcd".toList : Chars) ≠ "XYbd".toList := by
  exact ⟨rfl, rfl, by decide⟩

/-- Claim C1, amended: with a context, a selected line, and a set of valid,
pairwise separated (sorted ascending, non-overlapping with boundary touches
excluded), in-bounds fix-it hints of which every hint except possibly the
last leaves the line length unchanged, applyFixitHints returns the selected
line with the edit of every hint applied at its original range.index against
the character positions of the original line (specApplyFixitHints).  The
unamended claim promised this for all such hint sets; it fails once an
earlier hint changes the length, because the code applies each edit to the
running string without re-indexing (see the counterexample). -/
theorem applyFixitHints_original_positions (m : DiagnosticsMessage)
    (context : DiagnosticsContextType) (line : Chars)
    (hctx : m.context = some context)
    (hline : jsGetElem context.lines
      (m.message.linenumber.getD 1 - context.linenumber) = some line)
    (hpair : m.fixitHints.Pairwise hintGap)
    (hval : ∀ f ∈ m.fixitHints, hintValid f)
    (hbound : ∀ f ∈ m.fixitHints, hintInBounds line f)
    (hpres : ∀ f ∈ m.fixitHints.dropLast, editDelta f = 0) :
    m.applyFixitHints = specApplyFixitHints m := by
  unfold DiagnosticsMessage.applyFixitHints specApplyFixitHints
  simp only [hctx, hline]
  rw [foldl_map_some, foldr_map_some,
    foldl_eq_foldr_applyHintTo m.fixitHints line hpair hval hbound hpres]

/-- Witness for the amended claim C1. -/
theorem applyFixitHints_original_positions_witness :
    exC1w = .ok mC1w ∧ mC1w.applyFixitHints = specApplyFixitHints mC1w ∧
      mC1w.applyFixitHints = .ok (some "ZbQcd".toList) := by
  refine ⟨rfl, ?_, rfl⟩
  exact applyFixitHints_original_positions mC1w ⟨1, ["abcd".toList]⟩ "abcd".toList
    rfl rfl (by decide) (by decide) (by decide) (by decide)

/-- Claim C7, counterexample: a result carrying the unrecognized level
string info is extracted with level Note, not Warning as the claim states. -/
theorem extractFromSarif_unrecognized_level_note :
    extractFromSarif exC7log none = .ok [mC7] ∧ mC7.level = .Note ∧
      DiagnosticsLevelEnum.Note ≠ DiagnosticsLevelEnum.Warning := by
  exact ⟨rfl, rfl, by decide⟩

/-- Claim C7, amended: for every structured-results log and every qualifying
location (a result message text and a physical location are present), a
successful extractFromSarif run yields a message whose file is the artifact
URI or the empty string when absent, whose text is the result message text,
whose line is region.startLine defaulting to 1, whose column is
region.startColumn defaulting to 1, and whose level is Warning when the
level string is absent, Error for the string error, Warning for the string
warning, and Note for every other string.  The unamended claim said every
unrecognized level string maps to Warning; the code maps unrecognized
strings to Note (see the counterexample). -/
theorem extractFromSarif_message_fields (log : SarifLog) (run : Option Int)
    (msgs : List DiagnosticsMessage) (hok : extractFromSarif log run = .ok msgs)
    (theRun : SarifRun)
    (hrun : jsGetElem log.runs (run.getD ((log.runs.length : Int) - 1)) = some theRun)
    (result : SarifResult) (hres : result ∈ theRun.results.getD [])
    (location : SarifLocation) (hloc : location ∈ result.locations.getD [])
    (text : Chars) (htext : result.messageText = some text)
    (physicalLocation : SarifPhysicalLocation)
    (hphys : location.physicalLocation = some physicalLocation) :
    ∃ msg, msg ∈ msgs ∧
      msg.file = physicalLocation.artifactUri.getD [] ∧
      msg.message.text = text ∧
      msg.message.linenumber =
        some ((physicalLocation.region.bind SarifRegion.startLine).getD 1) ∧
      msg.message.column =
        some ((physicalLocation.region.bind SarifRegion.startColumn).getD 1) ∧
      msg.level = (match result.level with
        | none => DiagnosticsLevelEnum.Warning
        | some s => if s = "error".toList then DiagnosticsLevelEnum.Error
            else if s = "warning".toList then DiagnosticsLevelEnum.Warning
            else DiagnosticsLevelEnum.Note) := by
  simp only [extractFromSarif, hrun] at hok
  have hmem : (result, location) ∈ (theRun.results.getD []).flatMap
      (fun result => (result.locations.getD []).map (fun location => (result, location))) :=
    List.mem_flatMap.mpr ⟨result, hres, List.mem_map.mpr ⟨location, hloc, rfl⟩⟩
  have hf : extractSarifLocation result location = some (do
      let msg ← DiagnosticsMessage.construct
        { file := (physicalLocation.artifactUri).getD []
          level := some (getDiagnosticsLevelFromString (result.level.getD "warning".toList))
          message := { text := text
                       linenumber := some ((physicalLocation.region.bind SarifRegion.startLine).getD 1)
                       column := some ((physicalLocation.region.bind SarifRegion.startColumn).getD 1) } }
      match physicalLocation.region.bind SarifRegion.snippetText with
      | some s => msg.setContext ((physicalLocation.region.bind SarifRegion.startLine).getD 1) (.str s)
      | none => .ok msg) := by
    simp only [extractSarifLocation, htext, hphys]
  obtain ⟨msg, hX, hmsgs⟩ := collectYields_mem _ _ msgs hok (result, location) hmem _ hf
  refine ⟨msg, hmsgs, ?_⟩
  cases hcon : DiagnosticsMessage.construct
      { file := (physicalLocation.artifactUri).getD []
        level := some (getDiagnosticsLevelFromString (result.level.getD "warning".toList))
        message := { text := text
                     linenumber := some ((physicalLocation.region.bind SarifRegion.startLine).getD 1)
                     column := some ((physicalLocation.region.bind SarifRegion.startColumn).getD 1) } } with
  | error e =>
    rw [hcon] at hX
    simp [bind, Except.bind] at hX
  | ok m0 =>
    rw [hcon] at hX
    simp only [bind, Except.bind] at hX
    have hm0 := construct_ok_eq _ _ hcon
    have hlevel := level_of_optional_string result.level
    cases hsnip : physicalLocation.region.bind SarifRegion.snippetText with
    | none =>
      rw [hsnip] at hX
      simp only [Except.ok.injEq] at hX
      subst hX
      rw [hm0]
      exact ⟨rfl, rfl, rfl, rfl, hlevel⟩
    | some s =>
      rw [hsnip] at hX
      obtain ⟨hfile, hlev, hmsg, -⟩ := setContext_ok_fields m0 msg _ _ hX
      rw [hfile, hmsg, hlev, hm0]
      exact ⟨rfl, rfl, rfl, rfl, hlevel⟩

/-- Witness for the amended claim C7 at the concrete one-result log. -/
theorem extractFromSarif_message_fields_witness :
    ∃ msg, msg ∈ [mC7] ∧
      msg.file = "a.c".toList ∧
      msg.message.text = "boom".toList ∧
      msg.message.linenumber = some 3 ∧
      msg.message.column = some 2 ∧
      msg.level = DiagnosticsLevelEnum.Note := by
  have h := extractFromSarif_message_fields exC7log none [mC7] rfl runC7 rfl
    resC7 (by decide) locC7 (by decide) "boom".toList rfl plC7 rfl
  exact h

/-- Claim C8: whenever a header line arrives while a message is pending, the
pending message is discarded without being yielded and a new pending message
is started from the header; at end of input the still-pending message is
yielded as is.  Hence after any prefix of lines, two consecutive header
lines contribute exactly one message, built from the second header. -/
theorem extractRaw_header_while_collecting (classify : Chars → Option RawHeader)
    (pre : List Chars) (st : RawState) (out : List DiagnosticsMessage)
    (hpre : processRawLines classify pre ⟨none, 0⟩ = .ok (st, out))
    (l1 l2 : Chars) (g1 g2 : RawHeader) (h1 : classify l1 = some g1)
    (h2 : classify l2 = some g2) (m1 m2 : DiagnosticsMessage)
    (hm1 : mkHeaderMessage g1 = .ok m1) (hm2 : mkHeaderMessage g2 = .ok m2) :
    extractRaw classify (pre ++ [l1, l2]) = .ok (out ++ [m2]) := by
  unfold extractRaw
  rw [processRawLines_append, hpre]
  have hsuffix : processRawLines classify [l1, l2] st =
      .ok (⟨some m2, l2.length - (l2.dropWhile Char.isWhitespace).length⟩, []) := by
    simp only [processRawLines, extractRawStep, h1, h2, hm1, hm2, bind, Except.bind,
      List.nil_append, List.append_nil]
  simp only [bind, Except.bind]
  rw [hsuffix]
  simp [Except.bind]

/-- Witness for claim C8: an input of exactly two header lines yields
exactly one message, built from the second header. -/
theorem extractRaw_header_while_collecting_witness :
    extractRaw clC8 ["a.c:1:2: error: boom".toList, "b.c:3:4: note: pow".toList] =
      .ok [mC8b] := by
  have h := extractRaw_header_while_collecting clC8 [] ⟨none, 0⟩ [] rfl
    "a.c:1:2: error: boom".toList "b.c:3:4: note: pow".toList
    ⟨"a.c".toList, 1, 2, "error".toList, "boom".toList⟩
    ⟨"b.c".toList, 3, 4, "note".toList, "pow".toList⟩
    rfl rfl mC8a mC8b rfl rfl
  exact h

end DiagnoseIt
